import Mathlib

/-!
# Verification of the ioda observation-data access layer

Shallow embedding, in Lean 4, of the parts of the ioda repository that the
specification's claims are about:

* `NetcdfIO::ReadVar_any` and its missing-value substitution for floats and
  doubles (fileio/NetcdfIO.cc);
* the time-window filter and derived date/time vectors built in
  `NetcdfIO::NetcdfIO` (read mode);
* the round-robin distribution contract (distribution/RoundRobin.h);
* `NetcdfIO::ReadDateTime` reference-time and offset arithmetic;
* the legacy-format dimension rules in `NetcdfIO::NetcdfIO`;
* `ObsSpaceContainer::dump` (database/MultiIndexContainer);
* segmented store/load helpers (test/core/ObsSpaceContainer.h) over the
  container's `StoreToDb`/`LoadFromDb` operations;
* `NetcdfIO::CheckNcCall` error handling;
* the `ObsSpace::ObsSpace` obs-type dispatch (ioda/ObsSpace.cc).

Machine floats are modelled as rationals (`ℚ`): every IEEE float is a
rational, and all concrete values appearing in the claims are exactly
representable, so comparisons and the threshold test are faithful.  C `int`
truncation (`static_cast<int>`) is modelled by truncation toward zero on `ℚ`.
C++ integer division on non-negative operands is `Nat` division.
-/

namespace Ioda

/-! ## §4.H missing-value substitution (`NetcdfIO::ReadVar_any`)

From fileio/NetcdfIO.cc:

* `static const double missingthreshold = 1.0e08;`
* `NC_FLOAT` case: project the raw data onto the indices owned by the
  distribution, then `if (VarData[ii] > missingthreshold) VarData[ii] = fmiss;`
* `NC_DOUBLE` case: same, after `static_cast<float>` of each element (the
  downcast is the identity in the rational model).

`fmiss` is `util::missingValue(float)`, an external constant; it is a
parameter of the model. -/

def missingthreshold : ℚ := 100000000

/-- One element of the `NC_FLOAT` branch of `ReadVar_any`: the projected value
`x`, substituted by the sentinel `fmiss` when `x > missingthreshold`. -/
def substMissing (fmiss x : ℚ) : ℚ :=
  if x > missingthreshold then fmiss else x

/-- `ReadVar_any`, `NC_FLOAT` case: for `ii < dist_->size()`,
`VarData[ii] = rData[dist_->index()[ii]]`, then the threshold substitution. -/
def ReadVarAnyFloat (fmiss : ℚ) (rData : List ℚ) (distIndex : List ℕ) : List ℚ :=
  distIndex.map (fun idx => substMissing fmiss (rData.getD idx 0))

/-- `ReadVar_any`, `NC_DOUBLE` case: identical to the float case after the
`static_cast<float>` downcast (identity in the rational model). -/
def ReadVarAnyDouble (fmiss : ℚ) (dData : List ℚ) (distIndex : List ℕ) : List ℚ :=
  distIndex.map (fun idx => substMissing fmiss (dData.getD idx 0))

/-- The substitution rule as the specification words it ("if `|x| > 1.0e8`,
substitute a sentinel missing value"), for comparison with `substMissing`. -/
def specSubstMissing (fmiss x : ℚ) : ℚ :=
  if |x| > missingthreshold then fmiss else x

/-! ## §4.G round-robin distribution

Only the class declaration of `RoundRobin` is under src/
(distribution/RoundRobin.h); the body of `RoundRobin::distribution` is not. -/

/-- Modelled from the spec: `RoundRobin::distribution` (implementation not
under src/) assigns record `k` to rank `k mod R`, breaking ties by ascending
global index; when no record-group vector is given each index is its own
record, so rank `r` of `R` owns exactly the indices `k < N` with
`k mod R = r`, in ascending order. -/
def roundRobinIndices (R r N : ℕ) : List ℕ :=
  (List.range N).filter (fun k => k % R == r)

/-! ## §4.H reference time and per-observation offsets (`NetcdfIO::ReadDateTime`)

From fileio/NetcdfIO.cc:

* `CheckNcCall(nc_get_att_int(ncid_, NC_GLOBAL, "date_time", &dtvals_), ...);`
* `datetime_setints_f(&refdt_, dtvals_/100, dtvals_%100 * 3600);`
* `dt_[i] = refdt_ + util::Duration(static_cast<int>(OffsetTime[i] * 3600));`

`date_time` is `yyyymmddhh`, non-negative, so C `int` division and modulus
agree with `Nat` division and modulus.  `static_cast<int>` on a float is
truncation toward zero, modelled by `cIntCast` below. -/

/-- C `static_cast<int>` applied to a float value, modelled on `ℚ`:
truncation toward zero.  `Int.div` is Lean's T-division (truncating),
matching the C cast since the denominator is positive. -/
def cIntCast (q : ℚ) : ℤ := Int.tdiv q.num q.den

/-- The two arguments `(dtvals_/100, dtvals_%100 * 3600)` that
`NetcdfIO::ReadDateTime` passes to `datetime_setints_f` to build the
reference `util::DateTime` from the `date_time` attribute. -/
def refDateTimeArgs (date_time : ℕ) : ℕ × ℕ :=
  (date_time / 100, date_time % 100 * 3600)

/-- The seconds offset `static_cast<int>(OffsetTime[i] * 3600)` added to the
reference time for one observation. -/
def offsetDurationSeconds (offset : ℚ) : ℤ := cIntCast (offset * 3600)

/-- The per-observation seconds offsets computed by `NetcdfIO::ReadDateTime`
from the `time` variable (hours offsets). -/
def ReadDateTimeOffsets (offsets : List ℚ) : List ℤ :=
  offsets.map offsetDurationSeconds

/-! ## §4.H time-window filter (`NetcdfIO::NetcdfIO`, read mode)

From fileio/NetcdfIO.cc, after `ReadDateTime(datetime.get())`:

```
for (ii < dist_->size()) {
  index = dist_->index()[ii];
  if ((datetime[index] > bgn) && (datetime[index] <= end)) {
    datetime[index].toYYYYMMDDhhmmss(Year, Month, Day, Hour, Minute, Second);
    date_.push_back(Year*10000 + Month*100 + Day);
    time_.push_back(Hour*10000 + Minute*100 + Second);
  } else { to_be_removed.push_back(index); }
}
for (ii < to_be_removed.size()) dist_->erase(to_be_removed[ii]);
```

`util::DateTime` (external to the repository) is modelled as a broken-down
timestamp; its comparison operators are modelled by the packed key `dtKey`,
which orders valid timestamps chronologically, and `toYYYYMMDDhhmmss`
returns the six fields. -/

/-- Broken-down timestamp standing for `util::DateTime`. -/
structure UtilDateTime where
  year : ℕ
  month : ℕ
  day : ℕ
  hour : ℕ
  minute : ℕ
  second : ℕ
  deriving DecidableEq

/-- Packed comparison key for `UtilDateTime`: lexicographic in
(year, month, day, hour, minute, second), i.e. chronological order. -/
def dtKey (dt : UtilDateTime) : ℕ :=
  ((((dt.year * 100 + dt.month) * 100 + dt.day) * 100 + dt.hour) * 100 +
    dt.minute) * 100 + dt.second

/-- `Year*10000 + Month*100 + Day` pushed onto `date_` for a retained index. -/
def dateOf (dt : UtilDateTime) : ℕ := dt.year * 10000 + dt.month * 100 + dt.day

/-- `Hour*10000 + Minute*100 + Second` pushed onto `time_` for a retained
index. -/
def timeOf (dt : UtilDateTime) : ℕ := dt.hour * 10000 + dt.minute * 100 + dt.second

/-- The window test `(datetime[index] > bgn) && (datetime[index] <= end)`. -/
def insideWindow (bgn e dt : UtilDateTime) : Prop :=
  dtKey bgn < dtKey dt ∧ dtKey dt ≤ dtKey e

instance (bgn e dt : UtilDateTime) : Decidable (insideWindow bgn e dt) :=
  instDecidableAnd

/-- The filter loop of the constructor: walks the distribution's index list
in order and produces `(date_, time_, to_be_removed)`. -/
def filterLoop (bgn e : UtilDateTime) (dtf : ℕ → UtilDateTime) :
    List ℕ → List ℕ × List ℕ × List ℕ
  | [] => ([], [], [])
  | i :: rest =>
    let r := filterLoop bgn e dtf rest
    if insideWindow bgn e (dtf i) then
      (dateOf (dtf i) :: r.1, timeOf (dtf i) :: r.2.1, r.2.2)
    else
      (r.1, r.2.1, i :: r.2.2)

/-- The `date_` vector built by the filter loop. -/
def dateVec (bgn e : UtilDateTime) (dtf : ℕ → UtilDateTime) (idx : List ℕ) :
    List ℕ := (filterLoop bgn e dtf idx).1

/-- The `time_` vector built by the filter loop. -/
def timeVec (bgn e : UtilDateTime) (dtf : ℕ → UtilDateTime) (idx : List ℕ) :
    List ℕ := (filterLoop bgn e dtf idx).2.1

/-- The `to_be_removed` vector built by the filter loop. -/
def toBeRemoved (bgn e : UtilDateTime) (dtf : ℕ → UtilDateTime) (idx : List ℕ) :
    List ℕ := (filterLoop bgn e dtf idx).2.2

/-- Modelled from the spec: `Distribution::erase(i)` (implementation not under
src/) removes `i` from the owned index list and keeps the surviving indices in
their original order. -/
def eraseIdx (l : List ℕ) (i : ℕ) : List ℕ := l.filter (fun j => j ≠ i)

/-- The owned index list after the constructor has erased every
out-of-window index. -/
def distAfterFilter (bgn e : UtilDateTime) (dtf : ℕ → UtilDateTime)
    (idx : List ℕ) : List ℕ :=
  (toBeRemoved bgn e dtf idx).foldl eraseIdx idx

/-! ## §4.F legacy-format dimension rules (`NetcdfIO::NetcdfIO`, read mode)

From fileio/NetcdfIO.cc lines 153-185: the constructor looks up the dimension
ids of `nrecs`, `nobs`, `nlocs`, `nvars`, `nchans`.  If `nrecs` is present
(new file) it reads `nlocs`, `nobs`, `nrecs`, `nvars` directly; otherwise
(old file) it reads `nobs`, sets `nvars` from `nchans` when present and to 1
otherwise, and sets `nfvlen_ = nobs_ / nvars_` (C `size_t` division =
`Nat` division). -/

/-- The dimensions present in an input file: `none` when the named dimension
is absent, `some len` when present with length `len`. -/
structure NcFileDims where
  nrecs : Option ℕ
  nobs : Option ℕ
  nlocs : Option ℕ
  nvars : Option ℕ
  nchans : Option ℕ

/-- `nvars_` as set by the read-mode constructor.  On the branch taken the
code only queries lengths of dimensions it already found, so the `getD 0`
default is never exercised on well-formed files. -/
def ncReadNvars (f : NcFileDims) : ℕ :=
  match f.nrecs with
  | some _ => f.nvars.getD 0
  | none =>
    match f.nchans with
    | some c => c
    | none => 1

/-- `nfvlen_` (the per-rank full-vector length, i.e. the per-location count)
as set by the read-mode constructor. -/
def ncReadNfvlen (f : NcFileDims) : ℕ :=
  match f.nrecs with
  | some _ => f.nlocs.getD 0
  | none => f.nobs.getD 0 / ncReadNvars f

/-- Modelled from the spec: in legacy files (no `nrecs` dimension) every
rank-1 variable is treated as locations-dimensioned.  The constructor's
selection test compares a variable's first dimension id against the member
`nlocs_id_`; that member is declared in fileio/NetcdfIO.h, which is not under
src/, and is never assigned when the `nlocs` lookup fails on a legacy file. -/
def legacySelectsVar (ndims : ℕ) : Bool := ndims == 1

/-! ## §4.I `ObsSpaceContainer::dump` (database/MultiIndexContainer)

From src/ioda/ObsSpace.h (container part), `dump`:

```
auto & var = DataContainer.get<ObsSpaceContainer::by_variable>();
for (auto iter = var.begin(); iter != var.end(); ++iter)
  fileio->WriteVar_any(iter->variable + "@" + iter->group, iter->data.get());
```
-/

/-- The (group, variable-name) part of one container record. -/
structure VarRecord where
  group : String
  vname : String
  deriving DecidableEq

/-- Modelled from the spec: the `by_variable` secondary index of the
multi-index container (database/MultiIndexContainer.h is not under src/)
iterates records ordered by variable name alphabetically. -/
def byVariable (recs : List VarRecord) : List VarRecord :=
  List.insertionSort (fun a b => a.vname ≤ b.vname) recs

/-- `ObsSpaceContainer::dump`: the sequence of on-disk dataset names written,
in iteration order of the by_variable index:
`iter->variable + "@" + iter->group` for every record. -/
def dumpNames (recs : List VarRecord) : List String :=
  (byVariable recs).map (fun r => r.vname ++ "@" ++ r.group)

/-- The on-disk name as the specification words it: `variable@group`, or the
bare `variable` when the group is `GroupUndefined`. -/
def specDiskName (r : VarRecord) : String :=
  if r.group = "GroupUndefined" then r.vname else r.vname ++ "@" ++ r.group

/-! ## §7 error handling (`NetcdfIO::CheckNcCall`, `ObsSpace::ObsSpace`)

From fileio/NetcdfIO.cc:

```
void NetcdfIO::CheckNcCall(int RetCode, std::string & ErrorMsg) {
  if (RetCode != NC_NOERR) { oops::Log::error() << ...; ABORT(ErrorMsg); }
}
```

`ABORT` terminates the process; it never returns to the caller.  The outcome
of a checked call is therefore either normal continuation or a process
abort, modelled by `NcCallResult`. -/

/-- Outcome of a checked NetCDF call: normal return, or `ABORT(msg)`
(process termination). -/
inductive NcCallResult where
  | ok
  | abortCalled (msg : String)
  deriving DecidableEq

/-- `NC_NOERR`, the NetCDF success return code. -/
def NC_NOERR : ℤ := 0

/-- `NetcdfIO::CheckNcCall`. -/
def CheckNcCall (RetCode : ℤ) (ErrorMsg : String) : NcCallResult :=
  if RetCode ≠ NC_NOERR then .abortCalled ErrorMsg else .ok

/-- `NetcdfIO::ReadVar` (int overload): two NetCDF calls in sequence, each
checked with `CheckNcCall`; the second runs only if the first returned
normally. -/
def ReadVarIntCalls (inqRet getRet : ℤ) (VarName : String) : NcCallResult :=
  match CheckNcCall inqRet
      ("NetcdfIO::ReadVar: Netcdf dataset not found: " ++ VarName) with
  | .abortCalled m => .abortCalled m
  | .ok => CheckNcCall getRet
      ("NetcdfIO::ReadVar: Unable to read dataset: " ++ VarName)

/-- The propagation policy as the specification words it: a failing backend
call surfaces the error synchronously to the caller (an `Except` value)
rather than exiting the process. -/
def specCheckNcCall (RetCode : ℤ) (ErrorMsg : String) : Except String Unit :=
  if RetCode ≠ NC_NOERR then .error ErrorMsg else .ok ()

/-! From src/ioda/ObsSpace.cc, the constructor dispatches on `ObsType`:

```
obsname_ = config.getString("ObsType");
if (obsname_ == "Radiance") ioda_obsdb_radiance_setup_f90(...);
else if (obsname_ == "Radiosonde") ...
else if (obsname_ == "Aod") ioda_obsdb_aod_setup_f90(...);
```

There is no final `else`: an unrecognized `ObsType` falls through the chain
and the constructor completes without calling any setup and without raising
any error. -/

/-- What the `ObsSpace` constructor does for a given `ObsType` string. -/
inductive ObsSetupCall where
  | setupCalled (which : String)
  | noSetup
  deriving DecidableEq

/-- The `if`/`else if` chain of `ObsSpace::ObsSpace`. -/
def obsSpaceSetup (ObsType : String) : ObsSetupCall :=
  if ObsType = "Radiance" then .setupCalled "ioda_obsdb_radiance_setup_f90"
  else if ObsType = "Radiosonde" then .setupCalled "ioda_obsdb_radiosonde_setup_f90"
  else if ObsType = "SeaIceFraction" then .setupCalled "ioda_obsdb_seaice_setup_f90"
  else if ObsType = "StericHeight" then .setupCalled "ioda_obsdb_stericheight_setup_f90"
  else if ObsType = "SeaIceThickness" then .setupCalled "ioda_obsdb_seaicethick_setup_f90"
  else if ObsType = "Aod" then .setupCalled "ioda_obsdb_aod_setup_f90"
  else .noSetup

/-- The obs types recognized by the constructor's dispatch chain. -/
def recognizedObsTypes : List String :=
  ["Radiance", "Radiosonde", "SeaIceFraction", "StericHeight",
   "SeaIceThickness", "Aod"]

/-- Construction as the specification words it: an unrecognized `ObsType`
fails with an `InvalidConfig` error. -/
def specObsSpaceConstruct (ObsType : String) : Except String Unit :=
  if ObsType ∈ recognizedObsTypes then .ok () else .error "InvalidConfig"

/-! ## Variable selection and the date/time hack

From fileio/NetcdfIO.cc, read-mode constructor, for each file variable:

```
if ((ndimsp == 1) && (dimids[0] == nlocs_id_)) {
  std::string vname{name}; std::string gname{""};
  std::size_t Spos = vname.find("@");
  if (Spos != vname.npos) gname = vname.substr(Spos+1);
  vname_group_.push_back(std::make_tuple(vname.substr(0, Spos), gname));
  // Hack for date and time
  std::size_t found = vname.find("time");
  if ((found != std::string::npos) && (found == 0))
    vname_group_.push_back(std::make_tuple("date", gname));
}
```

and from `ReadVar_any`: a dataset name beginning with `"date"` returns the
`date_` vector, one beginning with `"time"` returns the `time_` vector, and
only otherwise is the NetCDF dataset consulted. -/

/-- Name and dimension metadata of one variable in the NetCDF file. -/
structure FileVar where
  name : String
  ndims : ℕ
  dimid0 : ℕ
  deriving DecidableEq

/-- `vname.find(p) == 0`, i.e. `vname` begins with `p`, on the underlying
character sequences. -/
def strStartsWith (p s : String) : Bool := p.data.isPrefixOf s.data

/-- `(vname.substr(0, Spos), gname)` where `Spos = vname.find("@")`:
the part before the first `@` and the part after it (empty when there is
no `@`). -/
def splitVname (vname : String) : String × String :=
  match vname.splitOn "@" with
  | [] => (vname, "")
  | v :: rest => (v, String.intercalate "@" rest)

/-- The `vname_group_` list built by the read-mode constructor: each rank-1
variable on the locations dimension contributes `(variable, group)`, followed
by an extra `("date", group)` when its name begins with `"time"`. -/
def buildVarList (nlocsId : ℕ) (fvars : List FileVar) : List (String × String) :=
  match fvars with
  | [] => []
  | fv :: rest =>
    let tail := buildVarList nlocsId rest
    if fv.ndims = 1 ∧ fv.dimid0 = nlocsId then
      if strStartsWith "time" fv.name then
        splitVname fv.name :: ("date", (splitVname fv.name).2) :: tail
      else
        splitVname fv.name :: tail
    else tail

/-- Result of `ReadVar_any` for a dataset name: either one of the derived
integer vectors computed by the constructor's filter, or data read from the
NetCDF dataset of that name. -/
inductive ReadVarResult where
  | derived (vals : List ℕ)
  | fileData (name : String)
  deriving DecidableEq

/-- The name dispatch at the top of `ReadVar_any`: names beginning with
`"date"` return `date_`, names beginning with `"time"` return `time_`,
anything else falls through to the NetCDF read. -/
def ReadVarAnyName (dateVals timeVals : List ℕ) (VarName : String) :
    ReadVarResult :=
  if strStartsWith "date" VarName then .derived dateVals
  else if strStartsWith "time" VarName then .derived timeVals
  else .fileData VarName

/-! ## §4.I segmented store/load (test/core/ObsSpaceContainer.h)

The test helpers `StoreVarSegments` and `LoadVarSegments` are under src/;
the container operations they drive are not
(`ioda/core/ObsSpaceContainer`), and are modelled from the spec. -/

/-- Modelled from the spec: `ObsSpaceContainer::StoreToDb` with
`append = true` (implementation not under src/): the variable's leading
extent grows by the segment length, the segment data landing at the end of
the buffer. -/
def StoreToDbAppend {α : Type} (buffer segment : List α) : List α :=
  buffer ++ segment

/-- Modelled from the spec: `ObsSpaceContainer::LoadFromDb` with `start` and
`count` (implementation not under src/): partial read of
`[start, start + count)` along the leading axis. -/
def LoadFromDb {α : Type} (buffer : List α) (start count : ℕ) : List α :=
  (buffer.drop start).take count

/-- `StoreVarSegments`: for each segment `(start, count)`, slice
`VarData[start .. start + count)` and store it with `append = true`.  The
source iterates the parallel vectors `Starts` and `Counts`; they are zipped
here. -/
def StoreVarSegments {α : Type} (VarData : List α) (segs : List (ℕ × ℕ))
    (buffer : List α) : List α :=
  segs.foldl (fun c s => StoreToDbAppend c ((VarData.drop s.1).take s.2)) buffer

/-- The inner loop of `LoadVarSegments`:
`VarData[Starts[i] + j] = VarSegment[j]` for each `j`. -/
def setAt {α : Type} (out : List α) (pos : ℕ) : List α → List α
  | [] => out
  | v :: vs => setAt (out.set pos v) (pos + 1) vs

/-- `LoadVarSegments`: for each segment `(start, count)`, load
`[start, start + count)` from the container and write it into `VarData` at
positions `start + j`. -/
def LoadVarSegments {α : Type} (buffer : List α) (segs : List (ℕ × ℕ))
    (VarData : List α) : List α :=
  segs.foldl (fun out s => setAt out s.1 (LoadFromDb buffer s.1 s.2)) VarData

/-- The `Starts` vector computed by `testSegmentedStoreLoad` from a `Counts`
vector starting at `s0`: `Starts[0] = s0`,
`Starts[j] = Starts[j-1] + Counts[j-1]`. -/
def cumStartsFrom (s0 : ℕ) : List ℕ → List ℕ
  | [] => []
  | c :: cs => s0 :: cumStartsFrom (s0 + c) cs

/-- The ascending `(start, count)` segments of `testSegmentedStoreLoad`:
starts are the running sums of the counts, from 0. -/
def cumSegs (Counts : List ℕ) : List (ℕ × ℕ) :=
  (cumStartsFrom 0 Counts).zip Counts

end Ioda

namespace Ioda

theorem getD_map_getD {α β : Type} (f : α → β) (l : List α) (d : α) (d' : β)
    (i : ℕ) (h : i < l.length) : (l.map f).getD i d' = f (l.getD i d) := by
  rw [List.getD_eq_getElem _ _ (by simpa using h), List.getElem_map,
    List.getD_eq_getElem _ _ h]

theorem cIntCast_of_nonneg (q : ℚ) (h : 0 ≤ q) : cIntCast q = ⌊q⌋ := by
  rw [cIntCast, Rat.floor_def, Int.tdiv_eq_ediv (Rat.num_nonneg.mpr h)
    (Int.ofNat_nonneg q.den)]

theorem cIntCast_of_neg (q : ℚ) (h : q < 0) : cIntCast q = ⌈q⌉ := by
  have h2 : cIntCast q = -cIntCast (-q) := by
    rw [cIntCast, cIntCast, Rat.neg_num q, Rat.neg_den q, Int.neg_tdiv, neg_neg]
  rw [h2, cIntCast_of_nonneg (-q) (by linarith)]
  rw [Int.floor_neg, neg_neg]

theorem mem_roundRobinIndices (R r N k : ℕ) :
    k ∈ roundRobinIndices R r N ↔ k < N ∧ k % R = r := by
  simp [roundRobinIndices, List.mem_filter, List.mem_range]

theorem getD_map_substMissing (fmiss : ℚ) (rData : List ℚ) (distIndex : List ℕ)
    (i : ℕ) (h : i < distIndex.length) :
    (distIndex.map (fun idx => substMissing fmiss (rData.getD idx 0))).getD i 0 =
      substMissing fmiss (rData.getD (distIndex.getD i 0) 0) := by
  rw [List.getD_eq_getElem _ _ (by simpa using h), List.getElem_map,
    List.getD_eq_getElem _ _ h]

/-- C1 (counterexample to the claim as stated): the raw float value `-2.0e8`
satisfies `|x| > 1.0e8`, so the claim requires it to load as the sentinel;
but `ReadVar_any` tests `x > missingthreshold` without an absolute value and
loads it unchanged, which differs from the sentinel (taken as 0 here). -/
theorem C1_counterexample :
    ReadVarAnyFloat 0 [-(200000000 : ℚ)] [0] = [-(200000000 : ℚ)] ∧
    specSubstMissing 0 (-(200000000 : ℚ)) = 0 ∧
    (-(200000000 : ℚ)) ≠ 0 := by
  refine ⟨by decide, ?_, by decide⟩
  have habs : |(-(200000000 : ℚ))| > missingthreshold := by
    rw [abs_neg, abs_of_nonneg (by norm_num), missingthreshold]
    norm_num
  rw [specSubstMissing, if_pos habs]

/-- C1 (amended): for every float (or double, coerced to float) value read
from a backend variable, the loaded value equals the sentinel when
`x > 1.0e8` (strictly, with no absolute value: very negative values are
loaded unchanged) and equals `x` otherwise; the raw values
`[1.0, 1.0e9, -2.0]` load as `[1.0, SENTINEL, -2.0]`. -/
theorem C1_theorem (fmiss : ℚ) (rData : List ℚ) (distIndex : List ℕ) (i : ℕ)
    (h : i < distIndex.length) :
    ((ReadVarAnyFloat fmiss rData distIndex).getD i 0 =
      (if rData.getD (distIndex.getD i 0) 0 > missingthreshold then fmiss
       else rData.getD (distIndex.getD i 0) 0)) ∧
    ((ReadVarAnyDouble fmiss rData distIndex).getD i 0 =
      (if rData.getD (distIndex.getD i 0) 0 > missingthreshold then fmiss
       else rData.getD (distIndex.getD i 0) 0)) ∧
    ReadVarAnyFloat fmiss [1, 1000000000, -2] [0, 1, 2] = [1, fmiss, -2] := by
  refine ⟨?_, ?_, ?_⟩
  · rw [ReadVarAnyFloat, getD_map_substMissing fmiss rData distIndex i h, substMissing]
  · rw [ReadVarAnyDouble, getD_map_substMissing fmiss rData distIndex i h, substMissing]
  · simp [ReadVarAnyFloat, substMissing, missingthreshold]
    norm_num

/-- Witness for `C1_theorem` at `fmiss = 7`, raw data `[1, 1.0e9, -2]`,
identity distribution, position `1`. -/
theorem C1_witness :
    ((ReadVarAnyFloat 7 [1, 1000000000, -2] [0, 1, 2]).getD 1 0 =
      (if ([1, 1000000000, -2] : List ℚ).getD (([0, 1, 2] : List ℕ).getD 1 0) 0 >
          missingthreshold then (7 : ℚ)
       else ([1, 1000000000, -2] : List ℚ).getD (([0, 1, 2] : List ℕ).getD 1 0) 0)) ∧
    ((ReadVarAnyDouble 7 [1, 1000000000, -2] [0, 1, 2]).getD 1 0 =
      (if ([1, 1000000000, -2] : List ℚ).getD (([0, 1, 2] : List ℕ).getD 1 0) 0 >
          missingthreshold then (7 : ℚ)
       else ([1, 1000000000, -2] : List ℚ).getD (([0, 1, 2] : List ℕ).getD 1 0) 0)) ∧
    ReadVarAnyFloat 7 [1, 1000000000, -2] [0, 1, 2] = [1, 7, -2] :=
  C1_theorem 7 [1, 1000000000, -2] [0, 1, 2] 1 (by decide)

/-- C3: the round-robin distribution with no record-group vector assigns each
index `k` to rank `k mod R`, in ascending order; with 9 locations on 3 ranks,
rank 0 owns `{0,3,6}`, rank 1 owns `{1,4,7}`, rank 2 owns `{2,5,8}`. -/
theorem C3_theorem :
    (∀ R r N k : ℕ, k ∈ roundRobinIndices R r N ↔ k < N ∧ k % R = r) ∧
    roundRobinIndices 3 0 9 = [0, 3, 6] ∧
    roundRobinIndices 3 1 9 = [1, 4, 7] ∧
    roundRobinIndices 3 2 9 = [2, 5, 8] :=
  ⟨mem_roundRobinIndices, by decide, by decide, by decide⟩

/-- C4 (counterexample to the claim as stated): for the hours offset
`1/2048` (exactly representable in binary32, as is its product with 3600),
the offset in seconds is `1.7578125`; `ReadDateTime` truncates it to `1`
second via `static_cast<int>`, while rounding to the nearest integer as
claimed would give `2`. -/
theorem C4_counterexample :
    ReadDateTimeOffsets [1 / 2048] = [1] ∧
    round ((1 / 2048 : ℚ) * 3600) = 2 ∧ (1 : ℤ) ≠ 2 := by
  refine ⟨?_, by norm_num [round_eq], by decide⟩
  have h1 : ((1 : ℚ) / 2048 * 3600).num = 225 := by norm_num
  have h2 : ((1 : ℚ) / 2048 * 3600).den = 128 := by norm_num
  simp only [ReadDateTimeOffsets, List.map_cons, List.map_nil,
    offsetDurationSeconds, cIntCast, h1, h2]
  decide

/-- C4 (amended): the derived timestamp is computed as
`ref = makeDateTime(date_time / 100, (date_time % 100) * 3600 seconds)` and
`t_i = ref + trunc(offset_i * 3600) seconds`, where `trunc` is C truncation
toward zero (`static_cast<int>`): the floor for non-negative offsets and the
ceiling for negative ones, not rounding to the nearest integer. -/
theorem C4_theorem (date_time : ℕ) (offsets : List ℚ) (i : ℕ)
    (h : i < offsets.length) :
    refDateTimeArgs date_time = (date_time / 100, date_time % 100 * 3600) ∧
    (ReadDateTimeOffsets offsets).getD i 0 = cIntCast (offsets.getD i 0 * 3600) ∧
    (0 ≤ offsets.getD i 0 →
      (ReadDateTimeOffsets offsets).getD i 0 = ⌊offsets.getD i 0 * 3600⌋) ∧
    (offsets.getD i 0 < 0 →
      (ReadDateTimeOffsets offsets).getD i 0 = ⌈offsets.getD i 0 * 3600⌉) := by
  have hmap := getD_map_getD offsetDurationSeconds offsets 0 0 i h
  refine ⟨rfl, ?_, ?_, ?_⟩
  · rw [ReadDateTimeOffsets, hmap, offsetDurationSeconds]
  · intro h0
    rw [ReadDateTimeOffsets, hmap, offsetDurationSeconds,
      cIntCast_of_nonneg _ (by positivity)]
  · intro h0
    rw [ReadDateTimeOffsets, hmap, offsetDurationSeconds,
      cIntCast_of_neg _ (mul_neg_of_neg_of_pos h0 (by norm_num))]

/-- Witness for `C4_theorem` at `date_time = 2018041500` and the single
offset `-0.4` hours. -/
theorem C4_witness :
    refDateTimeArgs 2018041500 = (2018041500 / 100, 2018041500 % 100 * 3600) ∧
    (ReadDateTimeOffsets [-(2 / 5)]).getD 0 0 =
      cIntCast (([-(2 / 5)] : List ℚ).getD 0 0 * 3600) ∧
    (0 ≤ ([-(2 / 5)] : List ℚ).getD 0 0 →
      (ReadDateTimeOffsets [-(2 / 5)]).getD 0 0 =
        ⌊([-(2 / 5)] : List ℚ).getD 0 0 * 3600⌋) ∧
    (([-(2 / 5)] : List ℚ).getD 0 0 < 0 →
      (ReadDateTimeOffsets [-(2 / 5)]).getD 0 0 =
        ⌈([-(2 / 5)] : List ℚ).getD 0 0 * 3600⌉) :=
  C4_theorem 2018041500 [-(2 / 5)] 0 (by decide)

theorem mem_eraseIdx (l : List ℕ) (i j : ℕ) :
    j ∈ eraseIdx l i ↔ j ∈ l ∧ j ≠ i := by
  simp [eraseIdx]

theorem mem_foldl_eraseIdx (rm : List ℕ) :
    ∀ (l : List ℕ) (j : ℕ), j ∈ rm.foldl eraseIdx l ↔ j ∈ l ∧ j ∉ rm := by
  induction rm with
  | nil => simp
  | cons i rest ih =>
    intro l j
    rw [List.foldl_cons, ih, mem_eraseIdx]
    simp only [List.mem_cons]
    tauto

theorem toBeRemoved_eq_filter (bgn e : UtilDateTime) (dtf : ℕ → UtilDateTime)
    (idx : List ℕ) :
    toBeRemoved bgn e dtf idx =
      idx.filter (fun i => ¬insideWindow bgn e (dtf i)) := by
  induction idx with
  | nil => rfl
  | cons i rest ih =>
    rw [toBeRemoved, filterLoop] at *
    by_cases h : insideWindow bgn e (dtf i)
    · rw [if_pos h]
      simpa [List.filter_cons, h] using ih
    · rw [if_neg h]
      simpa [List.filter_cons, h] using congrArg (List.cons i) ih

theorem dateVec_eq_map_filter (bgn e : UtilDateTime) (dtf : ℕ → UtilDateTime)
    (idx : List ℕ) :
    dateVec bgn e dtf idx =
      (idx.filter (fun i => insideWindow bgn e (dtf i))).map
        (fun i => dateOf (dtf i)) := by
  induction idx with
  | nil => rfl
  | cons i rest ih =>
    rw [dateVec, filterLoop] at *
    by_cases h : insideWindow bgn e (dtf i)
    · rw [if_pos h]
      simpa [List.filter_cons, h] using congrArg (List.cons (dateOf (dtf i))) ih
    · rw [if_neg h]
      simpa [List.filter_cons, h] using ih

theorem timeVec_eq_map_filter (bgn e : UtilDateTime) (dtf : ℕ → UtilDateTime)
    (idx : List ℕ) :
    timeVec bgn e dtf idx =
      (idx.filter (fun i => insideWindow bgn e (dtf i))).map
        (fun i => timeOf (dtf i)) := by
  induction idx with
  | nil => rfl
  | cons i rest ih =>
    rw [timeVec, filterLoop] at *
    by_cases h : insideWindow bgn e (dtf i)
    · rw [if_pos h]
      simpa [List.filter_cons, h] using congrArg (List.cons (timeOf (dtf i))) ih
    · rw [if_neg h]
      simpa [List.filter_cons, h] using ih

/-- C2: for every observation index `i` in the distribution with derived
timestamp `dtf i` and window `(bgn, e)`, the ingest filter retains `i` (it
survives in the distribution) iff `bgn < dtf i ∧ dtf i ≤ e`
(lower-exclusive, upper-inclusive); every non-retained index is placed on
`to_be_removed` and erased from the distribution. -/
theorem C2_theorem (bgn e : UtilDateTime) (dtf : ℕ → UtilDateTime)
    (idx : List ℕ) (i : ℕ) (h : i ∈ idx) :
    (i ∈ distAfterFilter bgn e dtf idx ↔ insideWindow bgn e (dtf i)) ∧
    (¬insideWindow bgn e (dtf i) →
      i ∈ toBeRemoved bgn e dtf idx ∧ i ∉ distAfterFilter bgn e dtf idx) := by
  have hrm : i ∈ toBeRemoved bgn e dtf idx ↔
      i ∈ idx ∧ ¬insideWindow bgn e (dtf i) := by
    rw [toBeRemoved_eq_filter]
    simp [List.mem_filter]
  have hdist : i ∈ distAfterFilter bgn e dtf idx ↔
      i ∈ idx ∧ i ∉ toBeRemoved bgn e dtf idx :=
    mem_foldl_eraseIdx (toBeRemoved bgn e dtf idx) idx i
  constructor
  · rw [hdist, hrm]
    by_cases hw : insideWindow bgn e (dtf i) <;> simp [h, hw]
  · intro hw
    refine ⟨hrm.mpr ⟨h, hw⟩, ?_⟩
    rw [hdist, hrm]
    simp [h, hw]

/-- Witness for `C2_theorem`: window `(2018-04-15T00:00Z, 2018-04-15T00:30Z]`,
one owned index `0` whose timestamp `2018-04-15T00:24Z` is inside the
window. -/
theorem C2_witness :
    ((0 ∈ distAfterFilter ⟨2018, 4, 15, 0, 0, 0⟩ ⟨2018, 4, 15, 0, 30, 0⟩
        (fun _ => ⟨2018, 4, 15, 0, 24, 0⟩) [0] ↔
      insideWindow ⟨2018, 4, 15, 0, 0, 0⟩ ⟨2018, 4, 15, 0, 30, 0⟩
        ⟨2018, 4, 15, 0, 24, 0⟩) ∧
    (¬insideWindow ⟨2018, 4, 15, 0, 0, 0⟩ ⟨2018, 4, 15, 0, 30, 0⟩
        ⟨2018, 4, 15, 0, 24, 0⟩ →
      0 ∈ toBeRemoved ⟨2018, 4, 15, 0, 0, 0⟩ ⟨2018, 4, 15, 0, 30, 0⟩
        (fun _ => ⟨2018, 4, 15, 0, 24, 0⟩) [0] ∧
      0 ∉ distAfterFilter ⟨2018, 4, 15, 0, 0, 0⟩ ⟨2018, 4, 15, 0, 30, 0⟩
        (fun _ => ⟨2018, 4, 15, 0, 24, 0⟩) [0])) :=
  C2_theorem ⟨2018, 4, 15, 0, 0, 0⟩ ⟨2018, 4, 15, 0, 30, 0⟩
    (fun _ => ⟨2018, 4, 15, 0, 24, 0⟩) [0] 0 (by simp)

/-- C5: for a file with no `nrecs` dimension (legacy format), the reader sets
`nvars` to the length of the `nchans` dimension when present and to 1
otherwise, sets the per-location count to `nobs / nvars`, and treats every
rank-1 variable as locations-dimensioned; for the legacy radiance file
(`nobs = 20`, `nchans = 4`) this gives `nvars = 4` and 5 locations. -/
theorem C5_theorem (f : NcFileDims) (h : f.nrecs = none) :
    (∀ c, f.nchans = some c → ncReadNvars f = c) ∧
    (f.nchans = none → ncReadNvars f = 1) ∧
    ncReadNfvlen f = f.nobs.getD 0 / ncReadNvars f ∧
    (∀ n, legacySelectsVar n = true ↔ n = 1) ∧
    ncReadNvars ⟨none, some 20, none, none, some 4⟩ = 4 ∧
    ncReadNfvlen ⟨none, some 20, none, none, some 4⟩ = 5 := by
  refine ⟨?_, ?_, ?_, ?_, by decide, by decide⟩
  · intro c hc
    simp [ncReadNvars, h, hc]
  · intro hc
    simp [ncReadNvars, h, hc]
  · simp [ncReadNfvlen, h]
  · intro n
    simp [legacySelectsVar]

/-- Witness for `C5_theorem` at the legacy radiance file
(`nrecs` absent, `nobs = 20`, `nchans = 4`). -/
theorem C5_witness :
    (∀ c, (⟨none, some 20, none, none, some 4⟩ : NcFileDims).nchans = some c →
      ncReadNvars ⟨none, some 20, none, none, some 4⟩ = c) ∧
    ((⟨none, some 20, none, none, some 4⟩ : NcFileDims).nchans = none →
      ncReadNvars ⟨none, some 20, none, none, some 4⟩ = 1) ∧
    ncReadNfvlen ⟨none, some 20, none, none, some 4⟩ =
      (⟨none, some 20, none, none, some 4⟩ : NcFileDims).nobs.getD 0 /
        ncReadNvars ⟨none, some 20, none, none, some 4⟩ ∧
    (∀ n, legacySelectsVar n = true ↔ n = 1) ∧
    ncReadNvars ⟨none, some 20, none, none, some 4⟩ = 4 ∧
    ncReadNfvlen ⟨none, some 20, none, none, some 4⟩ = 5 :=
  C5_theorem ⟨none, some 20, none, none, some 4⟩ rfl

/-- C6 (counterexample to the claim as stated): `dump` writes a record whose
group is `GroupUndefined` as `variable@group` like every other record — the
write call is unconditionally `iter->variable + "@" + iter->group` — not
under the bare variable name that the claim requires. -/
theorem C6_counterexample :
    dumpNames [⟨"GroupUndefined", "tb"⟩] = ["tb@GroupUndefined"] ∧
    specDiskName ⟨"GroupUndefined", "tb"⟩ = "tb" ∧
    ("tb@GroupUndefined" : String) ≠ "tb" := by
  refine ⟨rfl, rfl, by decide⟩

/-- C6 (amended): `save` persists every variable — including those whose
group is `GroupUndefined` — under the on-disk name `variable@group`, and the
variables are written in by-variable iteration order (ordered by variable
name; the persisted order is exactly the by-variable iteration). -/
instance : IsTotal VarRecord (fun a b => a.vname ≤ b.vname) :=
  ⟨fun a b => le_total a.vname b.vname⟩

instance : IsTrans VarRecord (fun a b => a.vname ≤ b.vname) :=
  ⟨fun _ _ _ hab hbc => le_trans hab hbc⟩

theorem C6_theorem (recs : List VarRecord) (r : VarRecord) (h : r ∈ recs) :
    (r.vname ++ "@" ++ r.group) ∈ dumpNames recs ∧
    dumpNames recs = (byVariable recs).map (fun x => x.vname ++ "@" ++ x.group) ∧
    (byVariable recs).Perm recs ∧
    List.Sorted (fun a b : VarRecord => a.vname ≤ b.vname) (byVariable recs) := by
  have hperm : (byVariable recs).Perm recs := List.perm_insertionSort _ recs
  refine ⟨?_, rfl, hperm, List.sorted_insertionSort _ recs⟩
  exact List.mem_map_of_mem _ (hperm.mem_iff.mpr h)

/-- Witness for `C6_theorem` at a two-record container. -/
theorem C6_witness :
    ("air_temperature" ++ "@" ++ "ObsValue") ∈
      dumpNames [⟨"ObsValue", "air_temperature"⟩, ⟨"GroupUndefined", "tb"⟩] ∧
    dumpNames [⟨"ObsValue", "air_temperature"⟩, ⟨"GroupUndefined", "tb"⟩] =
      (byVariable [⟨"ObsValue", "air_temperature"⟩, ⟨"GroupUndefined", "tb"⟩]).map
        (fun x => x.vname ++ "@" ++ x.group) ∧
    (byVariable [⟨"ObsValue", "air_temperature"⟩, ⟨"GroupUndefined", "tb"⟩]).Perm
      [⟨"ObsValue", "air_temperature"⟩, ⟨"GroupUndefined", "tb"⟩] ∧
    List.Sorted (fun a b : VarRecord => a.vname ≤ b.vname)
      (byVariable [⟨"ObsValue", "air_temperature"⟩, ⟨"GroupUndefined", "tb"⟩]) :=
  C6_theorem [⟨"ObsValue", "air_temperature"⟩, ⟨"GroupUndefined", "tb"⟩]
    ⟨"ObsValue", "air_temperature"⟩ (by simp)

/-- C8 (counterexample to the claim as stated): a failing NetCDF call
(return code `-33`) does not surface an error to the caller — `CheckNcCall`
calls `ABORT`, which terminates the process, where the claimed policy would
return the error synchronously. -/
theorem C8_counterexample :
    CheckNcCall (-33) "NetcdfIO::ReadVar: Netcdf dataset not found: tb" =
      .abortCalled "NetcdfIO::ReadVar: Netcdf dataset not found: tb" ∧
    specCheckNcCall (-33) "NetcdfIO::ReadVar: Netcdf dataset not found: tb" =
      .error "NetcdfIO::ReadVar: Netcdf dataset not found: tb" ∧
    CheckNcCall (-33) "NetcdfIO::ReadVar: Netcdf dataset not found: tb" ≠
      .ok := by
  refine ⟨by decide, rfl, by decide⟩

/-- C8 (amended): every failing NetCDF backend call logs its message and
aborts the process through `ABORT`; no error value reaches the caller, and a
checked call returns normally iff the NetCDF return code is `NC_NOERR`. -/
theorem C8_theorem (RetCode inqRet getRet : ℤ) (ErrorMsg VarName : String)
    (h : RetCode ≠ NC_NOERR) (h2 : inqRet ≠ NC_NOERR ∨ getRet ≠ NC_NOERR) :
    CheckNcCall RetCode ErrorMsg = .abortCalled ErrorMsg ∧
    (∃ m, ReadVarIntCalls inqRet getRet VarName = .abortCalled m) ∧
    (∀ r e, CheckNcCall r e = .ok ↔ r = NC_NOERR) := by
  have hok : ∀ r e, CheckNcCall r e = .ok ↔ r = NC_NOERR := by
    intro r e
    rw [CheckNcCall]
    by_cases hr : r = NC_NOERR <;> simp [hr]
  refine ⟨by rw [CheckNcCall, if_pos h], ?_, hok⟩
  rcases h2 with h2 | h2
  · exact ⟨_, by rw [ReadVarIntCalls, CheckNcCall, if_pos h2]⟩
  · by_cases h1 : inqRet = NC_NOERR
    · refine ⟨"NetcdfIO::ReadVar: Unable to read dataset: " ++ VarName, ?_⟩
      have hfst : CheckNcCall inqRet
          ("NetcdfIO::ReadVar: Netcdf dataset not found: " ++ VarName) = .ok := by
        rw [CheckNcCall, if_neg (by simpa using h1)]
      rw [ReadVarIntCalls, hfst, CheckNcCall, if_pos h2]
    · exact ⟨_, by rw [ReadVarIntCalls, CheckNcCall, if_pos h1]⟩

/-- Witness for `C8_theorem`: failing return codes `-33` and `-49`. -/
theorem C8_witness :
    CheckNcCall (-33) "open failed" = .abortCalled "open failed" ∧
    (∃ m, ReadVarIntCalls (-49) 0 "tb" = .abortCalled m) ∧
    (∀ r e, CheckNcCall r e = .ok ↔ r = NC_NOERR) :=
  C8_theorem (-33) (-49) 0 "open failed" "tb" (by decide) (Or.inl (by decide))

/-- C9 (counterexample to the claim as stated): constructing an `ObsSpace`
with the unrecognized `ObsType` string `"UnknownType"` does not fail — the
`if`/`else if` chain has no final `else`, so the constructor completes with
no setup call and no error — where the claim requires an `InvalidConfig`
failure. -/
theorem C9_counterexample :
    obsSpaceSetup "UnknownType" = .noSetup ∧
    specObsSpaceConstruct "UnknownType" = .error "InvalidConfig" := by
  refine ⟨by decide, ?_⟩
  rw [specObsSpaceConstruct, if_neg (by decide)]

/-- C9 (amended): for every configuration whose `ObsType` string is not one
of the recognized obs types, the `ObsSpace` constructor silently completes
without calling any obs-domain setup and without raising any error; each
recognized obs type dispatches to its setup routine. -/
theorem C9_theorem (ObsType : String) (h : ObsType ∉ recognizedObsTypes) :
    obsSpaceSetup ObsType = .noSetup ∧
    (∀ t, t ∈ recognizedObsTypes → ∃ s, obsSpaceSetup t = .setupCalled s) := by
  simp only [recognizedObsTypes, List.mem_cons, List.not_mem_nil, or_false,
    not_or] at h
  obtain ⟨h1, h2, h3, h4, h5, h6⟩ := h
  refine ⟨by simp [obsSpaceSetup, h1, h2, h3, h4, h5, h6], ?_⟩
  intro t ht
  simp only [recognizedObsTypes, List.mem_cons, List.not_mem_nil, or_false] at ht
  rcases ht with rfl | rfl | rfl | rfl | rfl | rfl <;> exact ⟨_, rfl⟩

/-- Witness for `C9_theorem` at `ObsType = "UnknownType"`. -/
theorem C9_witness :
    obsSpaceSetup "UnknownType" = .noSetup ∧
    (∀ t, t ∈ recognizedObsTypes → ∃ s, obsSpaceSetup t = .setupCalled s) :=
  C9_theorem "UnknownType" (by decide)

theorem not_strStartsWith_date_of_time (s : String)
    (h : strStartsWith "time" s = true) : strStartsWith "date" s = false := by
  rw [strStartsWith, List.isPrefixOf_iff_prefix] at h
  rw [strStartsWith]
  by_contra hd
  rw [Bool.not_eq_false, List.isPrefixOf_iff_prefix] at hd
  obtain ⟨t1, h1⟩ := h
  obtain ⟨t2, h2⟩ := hd
  rw [← h1] at h2
  simp at h2

theorem strStartsWith_of_append (p g : String) :
    strStartsWith p (p ++ g) = true := by
  rw [strStartsWith, List.isPrefixOf_iff_prefix]
  exact ⟨g.data, (String.data_append p g).symm⟩

theorem mem_buildVarList (nlocsId : ℕ) (fvars : List FileVar) (fv : FileVar)
    (hmem : fv ∈ fvars) (hnd : fv.ndims = 1) (hid : fv.dimid0 = nlocsId)
    (ht : strStartsWith "time" fv.name = true) :
    ("date", (splitVname fv.name).2) ∈ buildVarList nlocsId fvars := by
  induction fvars with
  | nil => cases hmem
  | cons a rest ih =>
    rw [buildVarList]
    rcases List.mem_cons.mp hmem with rfl | hmem'
    · rw [if_pos ⟨hnd, hid⟩, if_pos ht]
      exact List.mem_cons_of_mem _ (List.mem_cons_self _ _)
    · have htail := ih hmem'
      by_cases hsel : a.ndims = 1 ∧ a.dimid0 = nlocsId
      · rw [if_pos hsel]
        by_cases htime : strStartsWith "time" a.name = true
        · rw [if_pos htime]
          exact List.mem_cons_of_mem _ (List.mem_cons_of_mem _ htail)
        · rw [if_neg htime]
          exact List.mem_cons_of_mem _ htail
      · rwa [if_neg hsel]

/-- C10: when a legacy file is opened for read, every selected rank-1
variable whose name begins with `"time"` causes an additional `("date",
group)` entry with the same group; a subsequent `ReadVar_any` of any name
beginning with `"date"` (resp. `"time"`) returns the filter's derived
integer date values `yyyy*10000 + mm*100 + dd` (resp. time values
`hh*10000 + mm*100 + ss`) for the retained owned indices instead of data
read from the file. -/
theorem C10_theorem (nlocsId : ℕ) (fvars : List FileVar) (fv : FileVar)
    (bgn e : UtilDateTime) (dtf : ℕ → UtilDateTime) (idx : List ℕ)
    (hmem : fv ∈ fvars) (hnd : fv.ndims = 1) (hid : fv.dimid0 = nlocsId)
    (ht : strStartsWith "time" fv.name = true) :
    ("date", (splitVname fv.name).2) ∈ buildVarList nlocsId fvars ∧
    ReadVarAnyName (dateVec bgn e dtf idx) (timeVec bgn e dtf idx) fv.name =
      .derived (timeVec bgn e dtf idx) ∧
    (∀ gname, ReadVarAnyName (dateVec bgn e dtf idx) (timeVec bgn e dtf idx)
        ("date" ++ gname) = .derived (dateVec bgn e dtf idx)) ∧
    dateVec bgn e dtf idx =
      (idx.filter (fun i => insideWindow bgn e (dtf i))).map
        (fun i => dateOf (dtf i)) ∧
    timeVec bgn e dtf idx =
      (idx.filter (fun i => insideWindow bgn e (dtf i))).map
        (fun i => timeOf (dtf i)) := by
  refine ⟨mem_buildVarList nlocsId fvars fv hmem hnd hid ht, ?_, ?_,
    dateVec_eq_map_filter bgn e dtf idx, timeVec_eq_map_filter bgn e dtf idx⟩
  · rw [ReadVarAnyName, not_strStartsWith_date_of_time fv.name ht]
    rw [if_neg (by simp), if_pos ht]
  · intro gname
    rw [ReadVarAnyName, if_pos (strStartsWith_of_append "date" gname)]

/-- Witness for `C10_theorem`: one selected rank-1 variable `time@MetaData`
on the locations dimension, with the window and timestamp of `C2_witness`. -/
theorem C10_witness :
    ("date", (splitVname "time@MetaData").2) ∈
      buildVarList 0 [⟨"time@MetaData", 1, 0⟩] ∧
    ReadVarAnyName
      (dateVec ⟨2018, 4, 15, 0, 0, 0⟩ ⟨2018, 4, 15, 0, 30, 0⟩
        (fun _ => ⟨2018, 4, 15, 0, 24, 0⟩) [0])
      (timeVec ⟨2018, 4, 15, 0, 0, 0⟩ ⟨2018, 4, 15, 0, 30, 0⟩
        (fun _ => ⟨2018, 4, 15, 0, 24, 0⟩) [0])
      (⟨"time@MetaData", 1, 0⟩ : FileVar).name =
      .derived (timeVec ⟨2018, 4, 15, 0, 0, 0⟩ ⟨2018, 4, 15, 0, 30, 0⟩
        (fun _ => ⟨2018, 4, 15, 0, 24, 0⟩) [0]) ∧
    (∀ gname, ReadVarAnyName
      (dateVec ⟨2018, 4, 15, 0, 0, 0⟩ ⟨2018, 4, 15, 0, 30, 0⟩
        (fun _ => ⟨2018, 4, 15, 0, 24, 0⟩) [0])
      (timeVec ⟨2018, 4, 15, 0, 0, 0⟩ ⟨2018, 4, 15, 0, 30, 0⟩
        (fun _ => ⟨2018, 4, 15, 0, 24, 0⟩) [0])
      ("date" ++ gname) =
      .derived (dateVec ⟨2018, 4, 15, 0, 0, 0⟩ ⟨2018, 4, 15, 0, 30, 0⟩
        (fun _ => ⟨2018, 4, 15, 0, 24, 0⟩) [0])) ∧
    dateVec ⟨2018, 4, 15, 0, 0, 0⟩ ⟨2018, 4, 15, 0, 30, 0⟩
        (fun _ => ⟨2018, 4, 15, 0, 24, 0⟩) [0] =
      (([0] : List ℕ).filter (fun i => insideWindow ⟨2018, 4, 15, 0, 0, 0⟩
          ⟨2018, 4, 15, 0, 30, 0⟩ ((fun _ => ⟨2018, 4, 15, 0, 24, 0⟩) i))).map
        (fun i => dateOf ((fun _ => (⟨2018, 4, 15, 0, 24, 0⟩ : UtilDateTime)) i)) ∧
    timeVec ⟨2018, 4, 15, 0, 0, 0⟩ ⟨2018, 4, 15, 0, 30, 0⟩
        (fun _ => ⟨2018, 4, 15, 0, 24, 0⟩) [0] =
      (([0] : List ℕ).filter (fun i => insideWindow ⟨2018, 4, 15, 0, 0, 0⟩
          ⟨2018, 4, 15, 0, 30, 0⟩ ((fun _ => ⟨2018, 4, 15, 0, 24, 0⟩) i))).map
        (fun i => timeOf ((fun _ => (⟨2018, 4, 15, 0, 24, 0⟩ : UtilDateTime)) i)) :=
  C10_theorem 0 [⟨"time@MetaData", 1, 0⟩] ⟨"time@MetaData", 1, 0⟩
    ⟨2018, 4, 15, 0, 0, 0⟩ ⟨2018, 4, 15, 0, 30, 0⟩
    (fun _ => ⟨2018, 4, 15, 0, 24, 0⟩) [0]
    (List.mem_cons_self _ _) rfl rfl (by decide)

theorem store_cumStartsFrom {α : Type} (VarData : List α) (Counts : List ℕ) :
    ∀ (s0 : ℕ) (buffer : List α),
      StoreVarSegments VarData ((cumStartsFrom s0 Counts).zip Counts) buffer =
        buffer ++ (VarData.drop s0).take Counts.sum := by
  induction Counts with
  | nil =>
    intro s0 buffer
    simp [StoreVarSegments, cumStartsFrom]
  | cons c cs ih =>
    intro s0 buffer
    rw [cumStartsFrom, List.zip_cons_cons, StoreVarSegments, List.foldl_cons]
    have hrec := ih (s0 + c) (StoreToDbAppend buffer ((VarData.drop s0).take c))
    rw [StoreVarSegments] at hrec
    rw [hrec, StoreToDbAppend, List.sum_cons, List.take_add, List.drop_drop,
      List.append_assoc]

theorem setAt_length {α : Type} (vals : List α) :
    ∀ (out : List α) (pos : ℕ), (setAt out pos vals).length = out.length := by
  induction vals with
  | nil => intro out pos; rfl
  | cons v vs ih => intro out pos; rw [setAt, ih, List.length_set]

theorem setAt_getElem? {α : Type} (vals : List α) :
    ∀ (out : List α) (pos : ℕ), pos + vals.length ≤ out.length →
      ∀ k, (setAt out pos vals)[k]? =
        if pos ≤ k ∧ k < pos + vals.length then vals[k - pos]? else out[k]? := by
  induction vals with
  | nil =>
    intro out pos h k
    rw [setAt, if_neg (by simp)]
  | cons v vs ih =>
    intro out pos h k
    simp only [List.length_cons] at h ⊢
    rw [setAt, ih (out.set pos v) (pos + 1)
      (by rw [List.length_set]; omega) k]
    by_cases h1 : pos + 1 ≤ k ∧ k < pos + 1 + vs.length
    · rw [if_pos h1, if_pos (by omega)]
      have hk : k - pos = (k - (pos + 1)) + 1 := by omega
      rw [hk, List.getElem?_cons_succ]
    · rw [if_neg h1]
      by_cases h2 : k = pos
      · subst h2
        rw [List.getElem?_set_self (by omega), if_pos (by omega), Nat.sub_self,
          List.getElem?_cons_zero]
      · rw [List.getElem?_set_ne (fun hh => h2 hh.symm), if_neg (by omega)]

theorem load_getElem? {α : Type} (buffer : List α) (segs : List (ℕ × ℕ)) :
    ∀ out : List α, (∀ s ∈ segs, s.1 + s.2 ≤ buffer.length) →
      out.length = buffer.length →
      (LoadVarSegments buffer segs out).length = buffer.length ∧
      ∀ k, (LoadVarSegments buffer segs out)[k]? =
        if ∃ s ∈ segs, s.1 ≤ k ∧ k < s.1 + s.2 then buffer[k]? else out[k]? := by
  induction segs with
  | nil =>
    intro out _ hlen
    refine ⟨hlen, fun k => ?_⟩
    rw [LoadVarSegments, List.foldl_nil, if_neg (by simp)]
  | cons s rest ih =>
    intro out hin hlen
    have hs : s.1 + s.2 ≤ buffer.length := hin s (List.mem_cons_self _ _)
    have hslice : (LoadFromDb buffer s.1 s.2).length = s.2 := by
      rw [LoadFromDb, List.length_take, List.length_drop]
      omega
    have hout' : (setAt out s.1 (LoadFromDb buffer s.1 s.2)).length = out.length :=
      setAt_length _ _ _
    have hrec := ih (setAt out s.1 (LoadFromDb buffer s.1 s.2))
      (fun t ht => hin t (List.mem_cons_of_mem _ ht)) (by rw [hout', hlen])
    have hLVS : LoadVarSegments buffer (s :: rest) out =
        LoadVarSegments buffer rest (setAt out s.1 (LoadFromDb buffer s.1 s.2)) := rfl
    refine ⟨by rw [hLVS]; exact hrec.1, fun k => ?_⟩
    have hset := setAt_getElem? (LoadFromDb buffer s.1 s.2) out s.1
      (by rw [hslice, hlen]; exact hs) k
    rw [hslice] at hset
    rw [hLVS, hrec.2 k]
    by_cases hcr : ∃ t ∈ rest, t.1 ≤ k ∧ k < t.1 + t.2
    · rw [if_pos hcr]
      obtain ⟨t, ht, h1⟩ := hcr
      rw [if_pos ⟨t, List.mem_cons_of_mem _ ht, h1⟩]
    · rw [if_neg hcr, hset]
      by_cases hcs : s.1 ≤ k ∧ k < s.1 + s.2
      · rw [if_pos hcs, if_pos ⟨s, List.mem_cons_self _ _, hcs⟩]
        rw [LoadFromDb, List.getElem?_take, if_pos (by omega), List.getElem?_drop,
          Nat.add_sub_cancel' hcs.1]
      · rw [if_neg hcs, if_neg ?_]
        rintro ⟨t, ht, h1⟩
        rcases List.mem_cons.mp ht with rfl | ht'
        · exact hcs h1
        · exact hcr ⟨t, ht', h1⟩

/-- C7 (counterexample to the claim as stated): `StoreToDb` with
`append = true` appends each segment at the current end of the buffer, so
storing the partition `{(2,1),(0,2)}` of `[0..3)` in that (non-ascending)
order scrambles the data: `[10,20,30]` stores as `[30,10,20]`, which differs
from the single whole-range store. -/
theorem C7_counterexample :
    StoreVarSegments [10, 20, 30] [(2, 1), (0, 2)] ([] : List ℕ) = [30, 10, 20] ∧
    StoreToDbAppend ([] : List ℕ) [10, 20, 30] = [10, 20, 30] ∧
    ([30, 10, 20] : List ℕ) ≠ [10, 20, 30] :=
  ⟨rfl, rfl, by decide⟩

/-- C7 (amended): storing the contiguous segments of a partition of `[0..n)`
in ascending-start order (starts being the running sums of the counts, as
`testSegmentedStoreLoad` derives them) yields the same final buffer as a
single whole-range store; loading any in-range family of segments covering
`[0..n)`, in any order, returns the whole buffer; in particular `[a,b,c,d,e]`
stored as append segments `(0,2),(2,1),(3,2)` and loaded back as segments
`(0,2),(2,2),(4,1)` returns the original data. -/
theorem C7_theorem {α : Type} (VarData buffer out : List α) (Counts : List ℕ)
    (segs : List (ℕ × ℕ)) (a b c d e : ℚ)
    (hsum : Counts.sum = VarData.length)
    (hin : ∀ s ∈ segs, s.1 + s.2 ≤ buffer.length)
    (hcov : ∀ k, k < buffer.length → ∃ s ∈ segs, s.1 ≤ k ∧ k < s.1 + s.2)
    (hlen : out.length = buffer.length) :
    StoreVarSegments VarData (cumSegs Counts) [] = StoreToDbAppend [] VarData ∧
    LoadVarSegments buffer segs out = buffer ∧
    StoreVarSegments [a, b, c, d, e] [(0, 2), (2, 1), (3, 2)] [] =
      [a, b, c, d, e] ∧
    LoadVarSegments [a, b, c, d, e] [(0, 2), (2, 2), (4, 1)] [0, 0, 0, 0, 0] =
      [a, b, c, d, e] := by
  refine ⟨?_, ?_, rfl, rfl⟩
  · rw [cumSegs, store_cumStartsFrom VarData Counts 0 [], List.drop_zero, hsum,
      List.take_length, StoreToDbAppend, List.nil_append]
  · obtain ⟨hL, hG⟩ := load_getElem? buffer segs out hin hlen
    apply List.ext_getElem?
    intro n
    by_cases hn : n < buffer.length
    · rw [hG n, if_pos (hcov n hn)]
    · rw [List.getElem?_eq_none (by omega), List.getElem?_eq_none (by omega)]

/-- Witness for `C7_theorem`: two-element data `[1,2]`, counts `[1,1]`, and
the covering load segments `(1,1),(0,1)` presented out of order. -/
theorem C7_witness :
    StoreVarSegments ([1, 2] : List ℚ) (cumSegs [1, 1]) [] =
      StoreToDbAppend [] [1, 2] ∧
    LoadVarSegments ([5, 6] : List ℚ) [(1, 1), (0, 1)] [0, 0] = [5, 6] ∧
    StoreVarSegments ([1, 2, 3, 4, 5] : List ℚ) [(0, 2), (2, 1), (3, 2)] [] =
      [1, 2, 3, 4, 5] ∧
    LoadVarSegments ([1, 2, 3, 4, 5] : List ℚ) [(0, 2), (2, 2), (4, 1)]
      [0, 0, 0, 0, 0] = [1, 2, 3, 4, 5] :=
  C7_theorem [1, 2] [5, 6] [0, 0] [1, 1] [(1, 1), (0, 1)] 1 2 3 4 5
    (by decide) (by decide) (by decide) (by decide)

end Ioda
